import Mathlib

/-!
Verification of the concurrent model-metadata extraction pipeline of
opendatahub-io/model-metadata-collection.

The definitions below are a shallow embedding, translated from the Go
sources:
  cmd/model-extractor/main.go      (coordinator, worker, layer scan, timestamps)
  internal/catalog/catalog.go      (deduplicateModels)
External collaborators (registry client, markdown field extraction,
artifact introspection, manifest-reference sanitizing) are modelled as
oracle parameters, matching section 6 of the design document.  Filesystem
effects are modelled as an explicit list of write records; machine
integers are modelled as Int/Nat (no overflow is relevant here).
-/

set_option maxRecDepth 10000

/-! ## Byte/char string primitives (Go strings package semantics) -/

/-- Boolean prefix test on char lists (Go strings.HasPrefix). -/
def charsPre : List Char → List Char → Bool
  | [], _ => true
  | _ :: _, [] => false
  | a :: xs, b :: ys => a == b && charsPre xs ys

/-- Go strings.HasPrefix over strings. -/
def strStarts (pre s : String) : Bool := charsPre pre.data s.data

/-- Go strings.HasSuffix over strings. -/
def strEnds (suf s : String) : Bool := charsPre suf.data.reverse s.data.reverse

/-- Go strings.Contains: sub occurs somewhere in s. -/
def charsHasSub (needle : List Char) : List Char → Bool
  | [] => needle.isEmpty
  | c :: rest => charsPre needle (c :: rest) || charsHasSub needle rest

/-- Go strings.Contains over strings. -/
def strHasSub (s sub : String) : Bool := charsHasSub sub.data s.data

/-! ## Go path/filepath semantics (unix separator) -/

/-- Split a char list on the path separator, keeping empty components
(Go strings.Split on the slash). -/
def splitSlash : List Char → List (List Char)
  | [] => [[]]
  | c :: rest =>
    match splitSlash rest with
    | [] => [[c]]
    | h :: t => if c == '/' then [] :: h :: t else (c :: h) :: t

/-- Join components with the path separator. -/
def joinSlash : List (List Char) → List Char
  | [] => []
  | [x] => x
  | x :: xs => x ++ '/' :: joinSlash xs

/-- Core of Go path/filepath Clean: process path elements, dropping
empty and dot elements and resolving parent-traversal elements against
the output stack exactly as the Go lexical algorithm does. -/
def cleanParts (rooted : Bool) : List (List Char) → List (List Char) → List (List Char)
  | [], acc => acc.reverse
  | p :: rest, acc =>
    if p = [] ∨ p = ['.'] then cleanParts rooted rest acc
    else if p = ['.', '.'] then
      match acc with
      | [] => if rooted then cleanParts rooted rest [] else cleanParts rooted rest [['.', '.']]
      | q :: acc' =>
        if q = ['.', '.'] then cleanParts rooted rest (p :: q :: acc')
        else cleanParts rooted rest acc'
    else cleanParts rooted rest (p :: acc)

/-- Go filepath.Clean for unix paths. -/
def goClean (p : String) : String :=
  if p = "" then "." else
  let cs := p.data
  let rooted : Bool := charsPre ['/'] cs
  let parts := cleanParts rooted (splitSlash cs) []
  let joined := joinSlash parts
  let res := if rooted then '/' :: joined else joined
  if res.isEmpty then "." else String.mk res

/-- Go filepath.IsAbs for unix paths. -/
def goIsAbs (p : String) : Bool := strStarts "/" p

/-- Go filepath.Join of two elements (skipping empty elements, then Clean). -/
def goJoin (a b : String) : String :=
  if a = "" then (if b = "" then "" else goClean b)
  else if b = "" then goClean a
  else goClean (a ++ "/" ++ b)

/-- Go filepath.Join of three elements, all assumed treated as one
separator-joined string before Clean (used for the skeleton directory). -/
def goJoin3 (a b c : String) : String := goClean (a ++ "/" ++ b ++ "/" ++ c)

/-- Go filepath.Dir: everything up to the final separator, Cleaned. -/
def goDir (p : String) : String :=
  match (splitSlash p.data).dropLast with
  | [] => goClean ""
  | parts => goClean (String.mk (joinSlash parts ++ ['/']))

example : goClean "" = "." := by decide
example : goClean "../../etc/passwd" = "../../etc/passwd" := by decide
example : goClean "a/b/../c//./d" = "a/c/d" := by decide
example : goClean "/" = "/" := by decide
example : goClean "a/.." = "." := by decide
example : goJoin "output/m" "models" = "output/m/models" := by decide
example : goDir "output/m/README.md" = "output/m" := by decide
example : goDir "README.md" = "." := by decide
example : goDir "/a" = "/" := by decide

/-! ## Timestamp parsing (main.go parseTimestampWithFallback and helpers)

Go time.Parse with the layouts time.RFC3339Nano and time.RFC3339 accepts a
date, a capital T, a time, an optional fractional second of one to nine
digits, and either a capital Z or a numeric plus/minus hh:mm offset, with
all calendar fields range-checked.  The union of the two layouts is the
flexible grammar below.  A parsed Go time is represented by its Unix
second count and its nanosecond component. -/

/-- A parsed timestamp: Unix seconds plus the sub-second nanoseconds,
matching the two components of a Go time.Time relevant here. -/
structure GoTime where
  unixSec : Int
  nanos : Nat
deriving DecidableEq, Repr

/-- Gregorian leap-year test, as in Go time.isLeap. -/
def isLeapYear (y : Int) : Bool := y % 4 == 0 && (y % 100 != 0 || y % 400 == 0)

/-- Length of a month, as in Go time.daysIn. -/
def daysInMonth (y : Int) (m : Nat) : Nat :=
  if m = 2 then (if isLeapYear y then 29 else 28)
  else if m = 4 ∨ m = 6 ∨ m = 9 ∨ m = 11 then 30
  else 31

/-- Days from the Unix epoch to the given civil date (standard
days-from-civil algorithm, equivalent to the Go time package's absolute
day computation). -/
def daysFromCivil (y : Int) (m d : Nat) : Int :=
  let yAdj : Int := if m ≤ 2 then y - 1 else y
  let era : Int := (if 0 ≤ yAdj then yAdj else yAdj - 399) / 400
  let yoe : Int := yAdj - era * 400
  let mp : Int := if 2 < m then (m : Int) - 3 else (m : Int) + 9
  let doy : Int := (153 * mp + 2) / 5 + (d : Int) - 1
  let doe : Int := yoe * 365 + yoe / 4 - yoe / 100 + doy
  era * 146097 + doe - 719468

/-- Read one decimal digit. -/
def readDigit : List Char → Option (Nat × List Char)
  | c :: rest => if c.isDigit then some (c.toNat - 48, rest) else none
  | [] => none

/-- Read exactly n decimal digits as a number. -/
def readDigits : Nat → Nat → List Char → Option (Nat × List Char)
  | 0, acc, cs => some (acc, cs)
  | n + 1, acc, cs => do
    let (d, cs) ← readDigit cs
    readDigits n (acc * 10 + d) cs

/-- Expect one literal character. -/
def expectChar (c : Char) : List Char → Option (List Char)
  | x :: rest => if x == c then some rest else none
  | [] => none

/-- Read a run of decimal digits (greedy), returning digits and rest. -/
def takeDigits : List Char → List Char × List Char
  | [] => ([], [])
  | c :: rest =>
    if c.isDigit then
      let (ds, rs) := takeDigits rest
      (c :: ds, rs)
    else ([], c :: rest)

/-- Parse an optional fractional second: a dot followed by one to nine
digits, scaled to nanoseconds; more than nine digits is a parse error,
as in the Go time package. -/
def parseFraction : List Char → Option (Nat × List Char)
  | '.' :: rest =>
    let (ds, rs) := takeDigits rest
    if ds.length = 0 ∨ 9 < ds.length then none
    else
      let v := ds.foldl (fun acc c => acc * 10 + (c.toNat - 48)) 0
      some (v * 10 ^ (9 - ds.length), rs)
  | cs => some (0, cs)

/-- Parse the zone suffix: a capital Z, or a signed hh:mm offset.
Returns the offset east of UTC in seconds; the input must end there. -/
def parseZone : List Char → Option Int
  | ['Z'] => some 0
  | c :: rest =>
    if c == '+' ∨ c == '-' then do
      let (hh, rest) ← readDigits 2 0 rest
      let rest ← expectChar ':' rest
      let (mm, rest) ← readDigits 2 0 rest
      if rest = [] ∧ hh ≤ 23 ∧ mm ≤ 59 then
        let off : Int := (hh : Int) * 3600 + (mm : Int) * 60
        some (if c == '-' then -off else off)
      else none
    else none
  | [] => none

/-- Parse a timestamp in the grammar accepted by Go time.Parse under
time.RFC3339Nano or time.RFC3339 (the first accepts a superset of the
second, so this is also their union). -/
def parseRFC3339Flexible (s : String) : Option GoTime := do
  let cs := s.data
  let (y, cs) ← readDigits 4 0 cs
  let cs ← expectChar '-' cs
  let (mo, cs) ← readDigits 2 0 cs
  let cs ← expectChar '-' cs
  let (d, cs) ← readDigits 2 0 cs
  let cs ← expectChar 'T' cs
  let (h, cs) ← readDigits 2 0 cs
  let cs ← expectChar ':' cs
  let (mi, cs) ← readDigits 2 0 cs
  let cs ← expectChar ':' cs
  let (sec, cs) ← readDigits 2 0 cs
  let (ns, cs) ← parseFraction cs
  let off ← parseZone cs
  if 1 ≤ mo ∧ mo ≤ 12 ∧ 1 ≤ d ∧ d ≤ daysInMonth (y : Int) mo ∧
      h ≤ 23 ∧ mi ≤ 59 ∧ sec ≤ 59 then
    let days := daysFromCivil (y : Int) mo d
    some { unixSec := days * 86400 + (h : Int) * 3600 + (mi : Int) * 60 + (sec : Int) - off,
           nanos := ns }
  else none

/-- main.go parseTimestampWithFallback: empty input fails, otherwise the
timestamp is tried against RFC3339Nano first and RFC3339 second; the
result is the parsed time or none. -/
def parseTimestampWithFallback (timestampStr : String) : Option GoTime :=
  if timestampStr = "" then none
  else parseRFC3339Flexible timestampStr

example : parseTimestampWithFallback "2024-01-15T10:00:00Z" =
    some { unixSec := 1705312800, nanos := 0 } := by decide
example : parseTimestampWithFallback "2024-02-01T00:00:00.123456789Z" =
    some { unixSec := 1706745600, nanos := 123456789 } := by decide
example : parseTimestampWithFallback "2024-02-30T00:00:00Z" = none := by decide
example : parseTimestampWithFallback "" = none := by decide
example : parseTimestampWithFallback "2024-01-15T10:00:00+05:30" =
    some { unixSec := 1705312800 - 19800, nanos := 0 } := by decide

/-- main.go OCIImageConfig: the decoded form of the image configuration
blob, keeping the created field and the created field of each history
entry (the only fields the code reads). -/
structure OCIImageConfig where
  created : String
  history : List String
deriving DecidableEq, Repr

/-- The creation-time computation of extractTimestampsFromConfig
(main.go lines 817-825): the epoch is Unix seconds times 1000, so every
returned value is a whole multiple of 1000 milliseconds. -/
def createTimeFromConfig (config : OCIImageConfig) : Option Int :=
  if config.created = "" then none
  else
    match parseTimestampWithFallback config.created with
    | some parsedTime => some (parsedTime.unixSec * 1000)
    | none => none

/-- The update-time computation of extractTimestampsFromConfig (main.go
lines 827-837): it starts from the creation time and is overridden by
the last history entry when that entry is non-empty and parses. -/
def updateTimeFromConfig (config : OCIImageConfig) : Option Int :=
  match config.history.getLast? with
  | none => createTimeFromConfig config
  | some lastHistoryEntry =>
    if lastHistoryEntry = "" then createTimeFromConfig config
    else
      match parseTimestampWithFallback lastHistoryEntry with
      | some parsedTime => some (parsedTime.unixSec * 1000)
      | none => createTimeFromConfig config

/-- main.go extractTimestampsFromConfig.  The Go function takes the raw
config blob and JSON-decodes it; decoding is external, so the input here
is the decoded config, with none standing for an empty blob or a blob
that fails to unmarshal (both return nil, nil). -/
def extractTimestampsFromConfig (config : Option OCIImageConfig) : Option Int × Option Int :=
  match config with
  | none => (none, none)
  | some config => (createTimeFromConfig config, updateTimeFromConfig config)

example : extractTimestampsFromConfig
    (some { created := "2024-01-15T10:00:00Z",
            history := ["2024-02-01T00:00:00.123456789Z"] }) =
    (some 1705312800000, some 1706745600000) := by decide

/-! ## Data model (pkg/types, reconstructed from its uses in the sources) -/

/-- Modelled from the spec: types.ModelMetadata (pkg/types is not under
the provided sources).  The design document treats it as the opaque
structured-flags record returned by the field-extraction collaborator, so
it is represented abstractly as a list of named flags; only its zero
value and equality matter to the claims. -/
structure ModelMetadata where
  flags : List (String × Bool) := []
deriving DecidableEq, Repr

/-- types.OCIArtifact: the artifact record fields read by main.go (the
uri plus the two optional epoch-millisecond timestamps). -/
structure OCIArtifact where
  uri : String := ""
  createTimeSinceEpoch : Option Int := none
  lastUpdateTimeSinceEpoch : Option Int := none
deriving DecidableEq, Repr

/-- types.ExtractedMetadata, with the fields evidenced by the sources
and tests: optional name, provider, description and license, the three
string lists, and the artifact list. -/
structure ExtractedMetadata where
  name : Option String := none
  provider : Option String := none
  description : Option String := none
  license : Option String := none
  language : List String := []
  tasks : List String := []
  tags : List String := []
  artifacts : List OCIArtifact := []
deriving DecidableEq, Repr

/-- types.ModelEntry: one row of the models index. -/
structure ModelEntry where
  type : String := ""
  uri : String := ""
  labels : List String := []
deriving DecidableEq, Repr

/-- main.go ModelResult: the per-model result sent on the result channel. -/
structure ModelResult where
  ref : String
  modelCardFound : Bool
  metadata : ModelMetadata
deriving DecidableEq, Repr

/-! ## Layer scan (main.go scanLayersForModelCard) -/

/-- One entry of the documentation tar archive: a name and its byte
content. -/
structure TarEntry where
  name : String
  content : List Nat
deriving DecidableEq, Repr

/-- The decompressed payload behind a layer digest: whether the bytes
form a valid gzip stream when the media type demands one, and the tar
entries readable from the stream (a tar read error truncates the entry
list, which the code treats like end of stream). -/
structure LayerBlobData where
  validGzip : Bool
  entries : List TarEntry
deriving DecidableEq, Repr

/-- containers/image BlobInfo as used by the scan: digest, media type,
declared size and the optional annotation map (an association list with
unique keys); blob none models a GetBlob error or a nil blob stream,
both of which make the scan continue with the next layer. -/
structure Layer where
  digest : String
  mediaType : String
  size : Int
  annotations : Option (List (String × String))
  blob : Option LayerBlobData
deriving DecidableEq, Repr

/-- The annotation key marking the documentation layer. -/
def modelcarLayerTypeKey : String := "io.opendatahub.modelcar.layer.type"

/-- Go map lookup over the modelled annotation association list. -/
def lookupAnnotValue (al : List (String × String)) (k : String) : Option String :=
  match al with
  | [] => none
  | (k', v) :: rest => if k' = k then some v else lookupAnnotValue rest k

/-- Whether a layer carries the modelcard doc-layer annotation with the
expected value (main.go line 477). -/
def isModelcardLayer (layer : Layer) : Bool :=
  match layer.annotations with
  | none => false
  | some al => lookupAnnotValue al modelcarLayerTypeKey == some "modelcard"

/-- A fresh in-memory blob-info cache, as built by
blobinfocachememory.New() at each GetBlob call site: it starts out
knowing no digests. -/
def newBlobCache : List String := []

/-- One GetBlob call: the digest requested, the cache instance passed to
the call (represented by the digest set it knows), and the timeout of
the fresh bounded context created for the call. -/
structure FetchEvent where
  digest : String
  cacheAtCall : List String
  timeoutSeconds : Nat
deriving DecidableEq, Repr

/-- A fetch goes to the network when the cache passed to it does not
already know the requested digest. -/
def goesToNetwork (e : FetchEvent) : Bool := !e.cacheAtCall.contains e.digest

/-- The GetBlob event emitted for a layer (main.go lines 483-487): a
fresh 60 second context and a freshly constructed memory cache. -/
def fetchEv (layer : Layer) : FetchEvent :=
  { digest := layer.digest, cacheAtCall := newBlobCache, timeoutSeconds := 60 }

/-- The kind of a filesystem write performed by the scan. -/
inductive WriteKind where
  | dir
  | modelCard
  | metadataYaml
  | skeletonMetadata
deriving DecidableEq, Repr

/-- The payload of a filesystem write. -/
inductive FileData where
  | dirMarker
  | bytes (content : List Nat)
  | metaYaml (metadata : ExtractedMetadata)
deriving DecidableEq, Repr

/-- One filesystem effect of the scan: a directory creation or a file
write, with the path exactly as the code computes it. -/
structure FileWrite where
  kind : WriteKind
  path : String
  data : FileData
deriving DecidableEq, Repr

/-- The external collaborators consumed by the scan: the markdown
field-extraction functions and the registry artifact introspection
(section 6 of the design document). -/
structure ScanEnv where
  parseModelCardMetadata : List Nat → ModelMetadata
  extractMetadataValues : List Nat → ExtractedMetadata
  extractOCIArtifactsFromRegistry : String → List OCIArtifact

/-- The tar-entry loop of main.go lines 517-550: count names ending in
.md, buffer the first matching entry's name and content, and stop early
as soon as a second match is seen. -/
def tarScanMd : List TarEntry → Nat → String → List Nat → Nat × String × List Nat
  | [], count, name, content => (count, name, content)
  | e :: rest, count, name, content =>
    if strEnds ".md" e.name then
      if count + 1 > 1 then (count + 1, name, content)
      else tarScanMd rest (count + 1) e.name e.content
    else tarScanMd rest count name content

/-- Whether a tar entry name ends in the documentation extension. -/
def isMdEntry (e : TarEntry) : Bool := strEnds ".md" e.name

/-- The final resolved path stays a descendant of (or equals) the
destination directory: exactly the pass condition of the check at
main.go lines 567-572. -/
def withinDir (dest p : String) : Bool :=
  (goClean p == goClean dest) || strStarts (goClean dest ++ "/") (goClean p)

/-- Both path-safety checks of main.go lines 560-572 on the single
documentation entry name: the cleaned name must not be absolute and must
not begin with a parent-traversal segment, and the joined output path
must stay within the per-model directory. -/
def pathChecksPass (modelDir entryName : String) : Bool :=
  let safeName := goClean entryName
  !(goIsAbs safeName || strStarts "../" safeName) &&
    withinDir modelDir (goJoin modelDir safeName)

/-- Timestamp attachment of main.go lines 599-607 and 666-674: an
artifact timestamp already set by the registry introspection wins;
otherwise the config-derived value fills it. -/
def attachTimestamps (arts : List OCIArtifact) (config : Option OCIImageConfig) :
    List OCIArtifact :=
  let ct := extractTimestampsFromConfig config
  arts.map fun a =>
    { a with
      createTimeSinceEpoch :=
        match a.createTimeSinceEpoch with
        | none => ct.1
        | some v => some v,
      lastUpdateTimeSinceEpoch :=
        match a.lastUpdateTimeSinceEpoch with
        | none => ct.2
        | some v => some v }

/-- The outcome of processing one documentation layer. -/
inductive LayerStep where
  | success (flags : ModelMetadata) (writes : List FileWrite)
  | skip
deriving DecidableEq, Repr

/-- Processing of the tar entries of a fetched documentation layer
(main.go lines 512-627): isolate the single markdown entry, run the
path-safety checks, and on success create the output directory, write
the modelcard file and write the metadata record next to it. -/
def processBlobEntries (env : ScanEnv) (modelDir manifestRef : String)
    (config : Option OCIImageConfig) (entries : List TarEntry) : LayerStep :=
  let r := tarScanMd entries 0 "" []
  if r.1 = 1 then
    if pathChecksPass modelDir r.2.1 then
      let safeName := goClean r.2.1
      let outputFilePath := goJoin modelDir safeName
      let outputFileDir := goDir outputFilePath
      let extracted :=
        { env.extractMetadataValues r.2.2 with
          artifacts := attachTimestamps
            (env.extractOCIArtifactsFromRegistry manifestRef) config }
      .success (env.parseModelCardMetadata r.2.2)
        [ { kind := .dir, path := outputFileDir, data := .dirMarker },
          { kind := .modelCard, path := outputFilePath, data := .bytes r.2.2 },
          { kind := .metadataYaml, path := goJoin outputFileDir "metadata.yaml",
            data := .metaYaml extracted } ]
    else .skip
  else .skip

/-- Processing of one layer of the image (one iteration of the loop at
main.go lines 468-630): only a layer annotated as the modelcard layer is
fetched; a failed or nil blob, a bad gzip stream, an ambiguous archive
or an unsafe path all make the scan continue with the next layer. -/
def processLayer (env : ScanEnv) (modelDir manifestRef : String)
    (config : Option OCIImageConfig) (layer : Layer) : LayerStep × List FetchEvent :=
  if isModelcardLayer layer then
    match layer.blob with
    | none => (.skip, [fetchEv layer])
    | some blobData =>
      if strHasSub layer.mediaType "+gzip" && !blobData.validGzip then
        (.skip, [fetchEv layer])
      else
        (processBlobEntries env modelDir manifestRef config blobData.entries,
         [fetchEv layer])
  else (.skip, [])

/-- main.go createSkeletonMetadata: the fallback writes performed when
no modelcard was extracted, at the models subdirectory of the per-model
directory. -/
def createSkeletonMetadata (env : ScanEnv) (skelDir manifestRef : String)
    (config : Option OCIImageConfig) : List FileWrite :=
  let metadata : ExtractedMetadata :=
    { tags := [], language := [], tasks := [],
      artifacts := attachTimestamps
        (env.extractOCIArtifactsFromRegistry manifestRef) config }
  [ { kind := .dir, path := skelDir, data := .dirMarker },
    { kind := .skeletonMetadata, path := goJoin skelDir "metadata.yaml",
      data := .metaYaml metadata } ]

/-- The externally observable outcome of the whole layer scan: the
returned found flag and flags record, every filesystem effect, and every
GetBlob call. -/
structure ScanOutcome where
  found : Bool
  metadataFlags : ModelMetadata
  writes : List FileWrite
  fetches : List FetchEvent
deriving DecidableEq, Repr

/-- The layer loop of scanLayersForModelCard: the first successful layer
wins and returns immediately; if no layer succeeds the skeleton metadata
is created. -/
def scanLayersGo (env : ScanEnv) (modelDir skelDir manifestRef : String)
    (config : Option OCIImageConfig) : List Layer → ScanOutcome
  | [] =>
    { found := false, metadataFlags := {},
      writes := createSkeletonMetadata env skelDir manifestRef config,
      fetches := [] }
  | layer :: rest =>
    match processLayer env modelDir manifestRef config layer with
    | (.success flags ws, evs) =>
      { found := true, metadataFlags := flags, writes := ws, fetches := evs }
    | (.skip, evs) =>
      let r := scanLayersGo env modelDir skelDir manifestRef config rest
      { r with fetches := evs ++ r.fetches }

/-- main.go scanLayersForModelCard, for the model whose sanitized
reference directory is sanitizedDir under the output directory. -/
def scanLayersForModelCard (env : ScanEnv) (outputDirArg sanitizedDir manifestRef : String)
    (config : Option OCIImageConfig) (layers : List Layer) : ScanOutcome :=
  scanLayersGo env (goJoin outputDirArg sanitizedDir)
    (goJoin3 outputDirArg sanitizedDir "models") manifestRef config layers

/-- A layer annotated as a modelcard layer whose blob is available and
gzip-valid, holding the given tar entries. -/
def mkDocLayer (d mt : String) (sz : Int) (es : List TarEntry) : Layer :=
  { digest := d, mediaType := mt, size := sz,
    annotations := some [(modelcarLayerTypeKey, "modelcard")],
    blob := some { validGzip := true, entries := es } }

/-- A concrete trivial collaborator environment used by witnesses. -/
def trivialScanEnv : ScanEnv :=
  { parseModelCardMetadata := fun _ => {},
    extractMetadataValues := fun _ => {},
    extractOCIArtifactsFromRegistry := fun _ => [] }

example :
    (scanLayersForModelCard trivialScanEnv "output" "m" "reg/m:v1" none
      [mkDocLayer "sha256:d1" "application/vnd.oci.image.layer.v1.tar" 10
        [ { name := "README.md", content := [104, 105] } ]]).found = true := by decide

example :
    (scanLayersForModelCard trivialScanEnv "output" "m" "reg/m:v1" none
      [mkDocLayer "sha256:d1" "application/vnd.oci.image.layer.v1.tar" 10
        [ { name := "../../evil.md", content := [104, 105] } ]]).found = false := by decide

/-! ## Worker and coordinator (main.go processModelsInParallelWithEntryMap) -/

/-- The data obtained by a successful fetchManifestSrcAndLayers: the
ordered layer descriptors and the (decoded) configuration blob. -/
structure FetchedImage where
  layers : List Layer
  config : Option OCIImageConfig

/-- The registry and sanitizing collaborators of one run: fetchImage
returns none when reference parsing, session opening, or manifest or
config retrieval fails (any of the error returns of
fetchManifestSrcAndLayers). -/
structure WorkerEnv where
  fetchImage : String → Option FetchedImage
  sanitizeManifestRef : String → String
  collab : ScanEnv

/-- Everything one worker goroutine produces: the ModelResult placed on
the result channel plus its filesystem and network effects. -/
structure WorkerOutput where
  result : ModelResult
  writes : List FileWrite
  fetches : List FetchEvent

/-- The body of one worker goroutine (main.go lines 349-375): a failed
fetch immediately yields a found-false result with the zero metadata
value and no filesystem effect; otherwise the layer scan runs.  The
caller-supplied label set additionally feeds the file-level label merge,
modelled separately by addModelLabelTags. -/
def runWorker (env : WorkerEnv) (outputDirArg ref : String) : WorkerOutput :=
  match env.fetchImage ref with
  | none =>
    { result := { ref := ref, modelCardFound := false, metadata := {} },
      writes := [], fetches := [] }
  | some img =>
    let s := scanLayersForModelCard env.collab outputDirArg
      (env.sanitizeManifestRef ref) ref img.config img.layers
    { result := { ref := ref, modelCardFound := s.found, metadata := s.metadataFlags },
      writes := s.writes, fetches := s.fetches }

/-- The observable outcome of one coordinator run. -/
structure CoordinatorRun where
  warned : Bool
  effectiveMaxConcurrent : Int
  results : List ModelResult

/-- main.go processModelsInParallelWithEntryMap.  A non-positive
maxConcurrent is corrected to 1 with a warning (lines 334-338); one
goroutine per reference sends exactly one result on a channel buffered
to the reference count, and after all goroutines join the results are
collected in arrival order.  Arrival order is scheduler dependent, so it
is a parameter: a permutation of the reference indices.  The semaphore
size gates scheduling only and does not influence any result value.
The uriToEntry map supplies per-model label sets consumed by the
file-level label merge (addModelLabelTags), which is modelled
separately; it does not affect the returned results. -/
def processModelsInParallelWithEntryMap (env : WorkerEnv) (outputDirArg : String)
    (manifestRefs : List String) (uriToEntry : String → ModelEntry)
    (maxConcurrent : Int) (arrival : List Nat) : CoordinatorRun :=
  let effective := if maxConcurrent < 1 then 1 else maxConcurrent
  { warned := decide (maxConcurrent < 1),
    effectiveMaxConcurrent := effective,
    results := arrival.map fun i =>
      (runWorker env outputDirArg (manifestRefs.getD i "")).result }

/-! ## Label merge (main.go addModelLabelTags) -/

/-- main.go contains: linear membership scan over a string slice. -/
def contains (slice : List String) (item : String) : Bool :=
  match slice with
  | [] => false
  | s :: rest => if s = item then true else contains rest item

/-- The tag-merging loop of addModelLabelTags (main.go lines 432-438):
each non-empty label not yet present is appended, in label order. -/
def addLabelTags (tags : List String) (labels : List String) : List String :=
  labels.foldl (fun acc label =>
    if label ≠ "" ∧ ¬ (contains acc label) then acc ++ [label] else acc) tags

/-- main.go addModelLabelTags, over the decoded persisted metadata
record: none models a metadata file that cannot be read or parsed (the
function returns without writing); a nil tag list is initialized to the
empty list; then the entry's labels are merged into the tag list. -/
def addModelLabelTags (existing : Option ExtractedMetadata) (entry : ModelEntry) :
    Option ExtractedMetadata :=
  match existing with
  | none => none
  | some metadata =>
    some { metadata with tags := addLabelTags metadata.tags entry.labels }

example :
    addModelLabelTags (some { tags := ["validated"] })
      { labels := ["validated", "featured", ""] } =
    some { tags := ["validated", "featured"] } := by decide

/-! ## Catalog deduplication (internal/catalog/catalog.go deduplicateModels) -/

/-- types.CatalogMetadata, reduced to the only field deduplicateModels
reads: the optional model name. -/
structure CatalogMetadata where
  name : Option String
deriving DecidableEq, Repr

/-- ASCII whitespace test (the inputs of interest are ASCII; Go
strings.TrimSpace trims the Unicode space class). -/
def isSpaceChar (c : Char) : Bool :=
  c == ' ' || c == '\t' || c == '\n' || c == '\r'

/-- ASCII lower-casing of one char (Go strings.ToLower restricted to
ASCII). -/
def lowerChar (c : Char) : Char :=
  if 'A' ≤ c ∧ c ≤ 'Z' then Char.ofNat (c.toNat + 32) else c

/-- The name normalization of deduplicateModels:
strings.ToLower (strings.TrimSpace name). -/
def normalizeName (s : String) : String :=
  String.mk (((s.data.dropWhile isSpaceChar).reverse.dropWhile isSpaceChar).reverse.map lowerChar)

/-- One step of building the dynamic-name map (catalog.go lines
416-424): a non-nil name with non-empty normalization is tracked. -/
def dynKeyStep (m : List String) (model : CatalogMetadata) : List String :=
  match model.name with
  | some n => if normalizeName n = "" then m else normalizeName n :: m
  | none => m

/-- The dynamic-name map built at catalog.go lines 416-424: the set of
normalized non-empty names of dynamic models, as a key list. -/
def dynamicNameKeys (dynamicModels : List CatalogMetadata) : List String :=
  dynamicModels.foldl dynKeyStep []

/-- One step of the static-model loop of deduplicateModels (catalog.go
lines 431-445): a static model is appended only when it has a name whose
normalization is non-empty and not yet tracked, and its key is then
tracked to prevent duplicates within the static models. -/
def dedupStep (acc : List CatalogMetadata × List String) (staticModel : CatalogMetadata) :
    List CatalogMetadata × List String :=
  match staticModel.name with
  | none => acc
  | some n =>
    let k := normalizeName n
    if k = "" then acc
    else if contains acc.2 k then acc
    else (acc.1 ++ [staticModel], k :: acc.2)

/-- catalog.go deduplicateModels: all dynamic models are copied first,
then the static models are folded through dedupStep starting from the
dynamic models and their name keys. -/
def deduplicateModels (dynamicModels staticModels : List CatalogMetadata) :
    List CatalogMetadata :=
  (staticModels.foldl dedupStep (dynamicModels, dynamicNameKeys dynamicModels)).1

example :
    deduplicateModels
      [⟨some "Model A"⟩, ⟨some "Model B"⟩]
      [⟨some "Model B"⟩, ⟨some "Model C"⟩] =
    [⟨some "Model A"⟩, ⟨some "Model B"⟩, ⟨some "Model C"⟩] := by decide

example :
    deduplicateModels [⟨some "Dynamic Model"⟩]
      [⟨some "Static Model A"⟩, ⟨some "Static Model A"⟩, ⟨some "Static Model B"⟩] =
    [⟨some "Dynamic Model"⟩, ⟨some "Static Model A"⟩, ⟨some "Static Model B"⟩] := by decide

example :
    deduplicateModels [⟨some "Valid Dynamic"⟩, ⟨none⟩] [⟨none⟩, ⟨some "Valid Static"⟩] =
    [⟨some "Valid Dynamic"⟩, ⟨none⟩, ⟨some "Valid Static"⟩] := by decide

/-- The static models kept by deduplicateModels, as described by the
claim: exactly those whose trimmed, lowercased name is present and
non-empty and not already seen among the dynamic models or among
earlier kept static models. -/
def keptStatics (seen : List String) : List CatalogMetadata → List CatalogMetadata
  | [] => []
  | staticModel :: rest =>
    match staticModel.name with
    | none => keptStatics seen rest
    | some n =>
      let k := normalizeName n
      if k = "" then keptStatics seen rest
      else if contains seen k then keptStatics seen rest
      else staticModel :: keptStatics (k :: seen) rest

/-! ## Helper lemmas -/

theorem contains_iff_mem (l : List String) (x : String) : contains l x = true ↔ x ∈ l := by
  induction l with
  | nil => simp [contains]
  | cons a l ih =>
    by_cases h : a = x
    · subst h; simp [contains]
    · have hx : ¬ x = a := fun e => h e.symm
      simp [contains, h, hx, ih]

theorem addLabelTags_cons (tags : List String) (a : String) (labels : List String) :
    addLabelTags tags (a :: labels) =
      addLabelTags (if a ≠ "" ∧ ¬ contains tags a then tags ++ [a] else tags) labels := by
  simp only [addLabelTags, List.foldl_cons]

theorem subset_addLabelTags (tags labels : List String) :
    ∀ x ∈ tags, x ∈ addLabelTags tags labels := by
  induction labels generalizing tags with
  | nil => intro x hx; simpa [addLabelTags] using hx
  | cons a labels ih =>
    intro x hx
    rw [addLabelTags_cons]
    split
    · exact ih _ x (List.mem_append_left _ hx)
    · exact ih _ x hx

theorem mem_addLabelTags_of_label (tags labels : List String) :
    ∀ l ∈ labels, l ≠ "" → l ∈ addLabelTags tags labels := by
  induction labels generalizing tags with
  | nil => simp
  | cons a labels ih =>
    intro l hl hne
    rw [addLabelTags_cons]
    rcases List.mem_cons.mp hl with rfl | hl
    · refine subset_addLabelTags _ _ l ?_
      split
      · exact List.mem_append_right _ (List.mem_singleton.mpr rfl)
      · rename_i hcond
        rcases not_and_or.mp hcond with hc | hc
        · exact absurd hne (by simpa using hc)
        · exact (contains_iff_mem tags l).mp (by simpa using hc)
    · exact ih _ l hl hne

theorem addLabelTags_eq_of_mem (tags labels : List String)
    (h : ∀ l ∈ labels, l ≠ "" → l ∈ tags) : addLabelTags tags labels = tags := by
  induction labels with
  | nil => simp [addLabelTags]
  | cons a labels ih =>
    rw [addLabelTags_cons]
    have hstep : (if a ≠ "" ∧ ¬ contains tags a then tags ++ [a] else tags) = tags := by
      by_cases hne : a = ""
      · simp [hne]
      · have : a ∈ tags := h a (List.mem_cons_self _ _) hne
        simp [hne, (contains_iff_mem tags a).mpr this]
    rw [hstep]
    exact ih fun l hl hne => h l (List.mem_cons_of_mem _ hl) hne

theorem addLabelTags_idem (tags labels : List String) :
    addLabelTags (addLabelTags tags labels) labels = addLabelTags tags labels :=
  addLabelTags_eq_of_mem _ _ fun l hl hne => mem_addLabelTags_of_label tags labels l hl hne

theorem addLabelTags_nodup (tags labels : List String) (h : tags.Nodup) :
    (addLabelTags tags labels).Nodup := by
  induction labels generalizing tags with
  | nil => simpa [addLabelTags] using h
  | cons a labels ih =>
    rw [addLabelTags_cons]
    split
    · rename_i hcond
      refine ih _ ?_
      have : a ∉ tags := fun hmem => hcond.2 ((contains_iff_mem tags a).mpr hmem)
      simp [List.nodup_append, h, this]
    · exact ih _ h
/-! ## Claim theorems -/

/-- C5: for every non-positive maxConcurrent value (in particular 0),
the coordinator corrects it to 1 with a warning, never treating it as
unlimited concurrency and never failing, and the run produces the same
results as a run with maxConcurrent equal to 1. -/
theorem coordinator_nonpositive_maxConcurrent (env : WorkerEnv) (outputDirArg : String)
    (manifestRefs : List String) (uriToEntry : String → ModelEntry)
    (arrival : List Nat) (maxConcurrent : Int) (h : maxConcurrent ≤ 0) :
    (processModelsInParallelWithEntryMap env outputDirArg manifestRefs uriToEntry
        maxConcurrent arrival).effectiveMaxConcurrent = 1 ∧
    (processModelsInParallelWithEntryMap env outputDirArg manifestRefs uriToEntry
        maxConcurrent arrival).warned = true ∧
    (processModelsInParallelWithEntryMap env outputDirArg manifestRefs uriToEntry
        maxConcurrent arrival).results =
      (processModelsInParallelWithEntryMap env outputDirArg manifestRefs uriToEntry
        1 arrival).results := by
  have h1 : maxConcurrent < 1 := by omega
  refine ⟨?_, ?_, ?_⟩ <;> simp [processModelsInParallelWithEntryMap, h1]

/-- A concrete worker environment whose every fetch fails, used by
closed witness statements. -/
def failingWorkerEnv : WorkerEnv :=
  { fetchImage := fun _ => none,
    sanitizeManifestRef := fun s => s,
    collab := trivialScanEnv }

theorem coordinator_nonpositive_maxConcurrent_witness :
    (processModelsInParallelWithEntryMap failingWorkerEnv "output" ["reg/m:v1"]
        (fun _ => {}) 0 [0]).effectiveMaxConcurrent = 1 ∧
    (processModelsInParallelWithEntryMap failingWorkerEnv "output" ["reg/m:v1"]
        (fun _ => {}) 0 [0]).warned = true ∧
    (processModelsInParallelWithEntryMap failingWorkerEnv "output" ["reg/m:v1"]
        (fun _ => {}) 0 [0]).results =
      (processModelsInParallelWithEntryMap failingWorkerEnv "output" ["reg/m:v1"]
        (fun _ => {}) 1 [0]).results :=
  coordinator_nonpositive_maxConcurrent failingWorkerEnv "output" ["reg/m:v1"]
    (fun _ => {}) [0] 0 (by decide)

/-- C10: every epoch timestamp produced by extractTimestampsFromConfig
is an exact multiple of 1000 milliseconds, the sub-second component of
the parsed time being discarded by the Unix-seconds-times-1000
computation. -/
theorem extractTimestamps_multiple_of_1000 (config : Option OCIImageConfig) (v : Int) :
    ((extractTimestampsFromConfig config).1 = some v → v % 1000 = 0) ∧
    ((extractTimestampsFromConfig config).2 = some v → v % 1000 = 0) := by
  have hc : ∀ c : OCIImageConfig, createTimeFromConfig c = some v → v % 1000 = 0 := by
    intro c h
    unfold createTimeFromConfig at h
    split at h
    · exact absurd h (by simp)
    · split at h
      · rename_i t ht
        injection h with h
        omega
      · exact absurd h (by simp)
  cases config with
  | none => simp [extractTimestampsFromConfig]
  | some c =>
    refine ⟨fun h => hc c h, fun h => ?_⟩
    simp only [extractTimestampsFromConfig] at h
    unfold updateTimeFromConfig at h
    split at h
    · exact hc c h
    · split at h
      · exact hc c h
      · split at h
        · rename_i t ht
          injection h with h
          omega
        · exact hc c h

theorem extractTimestamps_multiple_of_1000_witness :
    (extractTimestampsFromConfig
        (some { created := "", history := ["2024-02-01T00:00:00.123456789Z"] })).2 =
      some 1706745600000 ∧
    (1706745600000 : Int) % 1000 = 0 :=
  ⟨by decide,
   (extractTimestamps_multiple_of_1000
      (some { created := "", history := ["2024-02-01T00:00:00.123456789Z"] })
      1706745600000).2 (by decide)⟩

/-- C4: for the config with created 2024-01-15T10:00:00Z and a single
history entry 2024-02-01T00:00:00.123456789Z, the extracted epochs are
1705312800000 and 1706745600000; in general the update timestamp
defaults to the creation timestamp and is overridden by the last history
entry exactly when that entry parses under one of the two accepted
RFC3339 formats. -/
theorem extractTimestamps_create_update_policy :
    extractTimestampsFromConfig
        (some { created := "2024-01-15T10:00:00Z",
                history := ["2024-02-01T00:00:00.123456789Z"] }) =
      (some 1705312800000, some 1706745600000) ∧
    (∀ c : OCIImageConfig, c.history = [] →
      (extractTimestampsFromConfig (some c)).2 = (extractTimestampsFromConfig (some c)).1) ∧
    (∀ (c : OCIImageConfig) (h : String), c.history.getLast? = some h →
      parseTimestampWithFallback h = none →
      (extractTimestampsFromConfig (some c)).2 = (extractTimestampsFromConfig (some c)).1) ∧
    (∀ (c : OCIImageConfig) (h : String) (t : GoTime), c.history.getLast? = some h →
      parseTimestampWithFallback h = some t →
      (extractTimestampsFromConfig (some c)).2 = some (t.unixSec * 1000)) := by
  refine ⟨by decide, ?_, ?_, ?_⟩
  · intro c hh
    simp [extractTimestampsFromConfig, updateTimeFromConfig, hh]
  · intro c h hl hp
    simp only [extractTimestampsFromConfig]
    unfold updateTimeFromConfig
    rw [hl]
    by_cases he : h = ""
    · simp [he]
    · simp [he, hp]
  · intro c h t hl hp
    have he : h ≠ "" := by
      intro e
      rw [e] at hp
      simp [parseTimestampWithFallback] at hp
    simp only [extractTimestampsFromConfig]
    unfold updateTimeFromConfig
    rw [hl]
    simp [he, hp]

theorem extractTimestamps_create_update_policy_witness :
    (extractTimestampsFromConfig (some { created := "2024-01-15T10:00:00Z", history := [] })).2 =
      (extractTimestampsFromConfig (some { created := "2024-01-15T10:00:00Z", history := [] })).1 ∧
    (extractTimestampsFromConfig
        (some { created := "2024-01-15T10:00:00Z", history := ["not-a-timestamp"] })).2 =
      (extractTimestampsFromConfig
        (some { created := "2024-01-15T10:00:00Z", history := ["not-a-timestamp"] })).1 ∧
    (extractTimestampsFromConfig (some { created := "", history := ["2024-02-01T00:00:00Z"] })).2 =
      some ((⟨1706745600, 0⟩ : GoTime).unixSec * 1000) :=
  ⟨extractTimestamps_create_update_policy.2.1 _ rfl,
   extractTimestamps_create_update_policy.2.2.1 _ "not-a-timestamp" (by decide) (by decide),
   extractTimestamps_create_update_policy.2.2.2 _ "2024-02-01T00:00:00Z" ⟨1706745600, 0⟩
     (by decide) (by decide)⟩

/-- C8: merging a label set into a persisted metadata record is an
idempotent union: labels already present leave the tag list unchanged,
applying the merge twice equals applying it once, and no duplicate tag
entries are introduced. -/
theorem addModelLabelTags_idempotent_union (metadata : ExtractedMetadata)
    (entry : ModelEntry) :
    ((∀ l ∈ entry.labels, l ∈ metadata.tags) →
        addModelLabelTags (some metadata) entry = some metadata) ∧
    addModelLabelTags (addModelLabelTags (some metadata) entry) entry =
      addModelLabelTags (some metadata) entry ∧
    (metadata.tags.Nodup → ∀ md2 : ExtractedMetadata,
        addModelLabelTags (some metadata) entry = some md2 → md2.tags.Nodup) := by
  refine ⟨?_, ?_, ?_⟩
  · intro h
    simp only [addModelLabelTags]
    rw [addLabelTags_eq_of_mem _ _ (fun l hl _ => h l hl)]
  · simp only [addModelLabelTags]
    rw [addLabelTags_idem]
  · intro hnd md2 h
    simp only [addModelLabelTags, Option.some.injEq] at h
    rw [← h]
    exact addLabelTags_nodup _ _ hnd

theorem addModelLabelTags_idempotent_union_witness :
    addModelLabelTags (some { tags := ["validated"] }) { labels := ["validated"] } =
      some { tags := ["validated"] } ∧
    (({ tags := ["validated", "featured"] } : ExtractedMetadata)).tags.Nodup :=
  ⟨(addModelLabelTags_idempotent_union { tags := ["validated"] }
      { labels := ["validated"] }).1 (by decide),
   (addModelLabelTags_idempotent_union { tags := ["validated"] }
      { labels := ["featured"] }).2.2 (by decide) { tags := ["validated", "featured"] }
      (by decide)⟩

theorem coordinator_map_getD (env : WorkerEnv) (outputDirArg : String) (l : List String) :
    (List.range l.length).map
        (fun i => (runWorker env outputDirArg (l.getD i "")).result) =
      l.map fun r => (runWorker env outputDirArg r).result := by
  induction l with
  | nil => simp
  | cons a l ih =>
    rw [List.length_cons, List.range_succ_eq_map, List.map_cons, List.map_map, List.map_cons]
    have hfun : ((fun i => (runWorker env outputDirArg ((a :: l).getD i "")).result) ∘ Nat.succ)
        = fun i => (runWorker env outputDirArg (l.getD i "")).result := by
      funext i
      simp
    rw [List.getD_cons_zero, hfun, ih]

theorem coordinator_results_perm (env : WorkerEnv) (outputDirArg : String)
    (manifestRefs : List String) (uriToEntry : String → ModelEntry)
    (maxConcurrent : Int) (arrival : List Nat)
    (h : arrival.Perm (List.range manifestRefs.length)) :
    (processModelsInParallelWithEntryMap env outputDirArg manifestRefs uriToEntry
        maxConcurrent arrival).results.Perm
      (manifestRefs.map fun r => (runWorker env outputDirArg r).result) := by
  simp only [processModelsInParallelWithEntryMap]
  have hm := h.map fun i => (runWorker env outputDirArg (manifestRefs.getD i "")).result
  rwa [coordinator_map_getD] at hm

/-- C1: for every input list of N manifest references (repetitions
allowed, any number of fetch failures), the coordinator returns exactly
N ModelResult entries, one per input reference (the result list is a
permutation of the per-reference worker results, results arriving in
completion order). -/
theorem coordinator_returns_one_result_per_reference (env : WorkerEnv)
    (outputDirArg : String) (manifestRefs : List String)
    (uriToEntry : String → ModelEntry) (maxConcurrent : Int) (arrival : List Nat)
    (h : arrival.Perm (List.range manifestRefs.length)) :
    (processModelsInParallelWithEntryMap env outputDirArg manifestRefs uriToEntry
        maxConcurrent arrival).results.length = manifestRefs.length ∧
    (processModelsInParallelWithEntryMap env outputDirArg manifestRefs uriToEntry
        maxConcurrent arrival).results.Perm
      (manifestRefs.map fun r => (runWorker env outputDirArg r).result) := by
  refine ⟨?_, coordinator_results_perm env outputDirArg manifestRefs uriToEntry
    maxConcurrent arrival h⟩
  simp only [processModelsInParallelWithEntryMap]
  rw [List.length_map, h.length_eq, List.length_range]

theorem coordinator_returns_one_result_per_reference_witness :
    (processModelsInParallelWithEntryMap failingWorkerEnv "output"
        ["reg/a:v1", "reg/a:v1", "reg/b:v1"] (fun _ => {}) 5 [2, 0, 1]).results.length = 3 ∧
    (processModelsInParallelWithEntryMap failingWorkerEnv "output"
        ["reg/a:v1", "reg/a:v1", "reg/b:v1"] (fun _ => {}) 5 [2, 0, 1]).results.Perm
      (["reg/a:v1", "reg/a:v1", "reg/b:v1"].map fun r =>
        (runWorker failingWorkerEnv "output" r).result) :=
  coordinator_returns_one_result_per_reference failingWorkerEnv "output"
    ["reg/a:v1", "reg/a:v1", "reg/b:v1"] (fun _ => {}) 5 [2, 0, 1] (by decide)

/-- C7: a reference whose manifest fetch fails yields a worker result
with found false and the empty metadata record, with no file written and
no directory created for it, and the coordinator still delivers the
results of all references. -/
theorem worker_fetch_failure_empty_result (env : WorkerEnv) (outputDirArg ref : String)
    (hf : env.fetchImage ref = none) (manifestRefs : List String)
    (uriToEntry : String → ModelEntry) (maxConcurrent : Int) (arrival : List Nat)
    (h : arrival.Perm (List.range manifestRefs.length)) :
    runWorker env outputDirArg ref =
      { result := { ref := ref, modelCardFound := false, metadata := {} },
        writes := [], fetches := [] } ∧
    (processModelsInParallelWithEntryMap env outputDirArg manifestRefs uriToEntry
        maxConcurrent arrival).results.Perm
      (manifestRefs.map fun r => (runWorker env outputDirArg r).result) := by
  refine ⟨?_, coordinator_results_perm env outputDirArg manifestRefs uriToEntry
    maxConcurrent arrival h⟩
  simp [runWorker, hf]

theorem worker_fetch_failure_empty_result_witness :
    runWorker failingWorkerEnv "output" "reg/m:v1" =
      { result := { ref := "reg/m:v1", modelCardFound := false, metadata := {} },
        writes := [], fetches := [] } ∧
    (processModelsInParallelWithEntryMap failingWorkerEnv "output"
        ["reg/m:v1", "reg/other:v2"] (fun _ => {}) 2 [1, 0]).results.Perm
      (["reg/m:v1", "reg/other:v2"].map fun r =>
        (runWorker failingWorkerEnv "output" r).result) :=
  worker_fetch_failure_empty_result failingWorkerEnv "output" "reg/m:v1" rfl
    ["reg/m:v1", "reg/other:v2"] (fun _ => {}) 2 [1, 0] (by decide)

theorem processLayer_mkDocLayer (env : ScanEnv) (modelDir manifestRef : String)
    (config : Option OCIImageConfig) (d mt : String) (sz : Int) (es : List TarEntry) :
    processLayer env modelDir manifestRef config (mkDocLayer d mt sz es) =
      (processBlobEntries env modelDir manifestRef config es,
       [fetchEv (mkDocLayer d mt sz es)]) := by
  simp [processLayer, mkDocLayer, isModelcardLayer, lookupAnnotValue]

theorem tarScanMd_from_one (es : List TarEntry) :
    ∀ n k, (tarScanMd es 1 n k).1 = 1 ↔ es.countP isMdEntry = 0 := by
  induction es with
  | nil => intro n k; simp [tarScanMd]
  | cons e es ih =>
    intro n k
    by_cases hmd : strEnds ".md" e.name
    · simp [tarScanMd, hmd, isMdEntry, List.countP_cons]
    · simp [tarScanMd, hmd, isMdEntry, List.countP_cons, ih]

theorem tarScanMd_count_one (es : List TarEntry) :
    ∀ n k, (tarScanMd es 0 n k).1 = 1 ↔ es.countP isMdEntry = 1 := by
  induction es with
  | nil => intro n k; simp [tarScanMd]
  | cons e es ih =>
    intro n k
    by_cases hmd : strEnds ".md" e.name
    · simp [tarScanMd, hmd, isMdEntry, List.countP_cons, tarScanMd_from_one]
    · simp [tarScanMd, hmd, isMdEntry, List.countP_cons, ih]

theorem processBlobEntries_success_within (env : ScanEnv) (modelDir manifestRef : String)
    (config : Option OCIImageConfig) (entries : List TarEntry) (f : ModelMetadata)
    (w : List FileWrite)
    (h : processBlobEntries env modelDir manifestRef config entries = .success f w) :
    ∀ x ∈ w, x.kind = WriteKind.modelCard → withinDir modelDir x.path = true := by
  simp only [processBlobEntries] at h
  split at h
  · split at h
    · rename_i h1 hpass
      injection h with hf hw
      subst hw
      intro x hx hk
      simp only [List.mem_cons, List.not_mem_nil, or_false] at hx
      rcases hx with rfl | rfl | rfl
      · simp at hk
      · simp only [pathChecksPass, Bool.and_eq_true] at hpass
        exact hpass.2
      · simp at hk
    · exact absurd h (by simp)
  · exact absurd h (by simp)

theorem processLayer_success_within (env : ScanEnv) (modelDir manifestRef : String)
    (config : Option OCIImageConfig) (layer : Layer) (f : ModelMetadata)
    (w : List FileWrite) (evs : List FetchEvent)
    (h : processLayer env modelDir manifestRef config layer = (.success f w, evs)) :
    ∀ x ∈ w, x.kind = WriteKind.modelCard → withinDir modelDir x.path = true := by
  unfold processLayer at h
  split at h
  · split at h
    · rw [Prod.mk.injEq] at h
      exact absurd h.1 (by simp)
    · split at h
      · rw [Prod.mk.injEq] at h
        exact absurd h.1 (by simp)
      · rw [Prod.mk.injEq] at h
        exact processBlobEntries_success_within env modelDir manifestRef config _ f w h.1
  · rw [Prod.mk.injEq] at h
    exact absurd h.1 (by simp)

theorem scanLayersGo_within (env : ScanEnv) (modelDir skelDir manifestRef : String)
    (config : Option OCIImageConfig) :
    ∀ (layers : List Layer) (x : FileWrite),
      x ∈ (scanLayersGo env modelDir skelDir manifestRef config layers).writes →
      x.kind = WriteKind.modelCard → withinDir modelDir x.path = true := by
  intro layers
  induction layers with
  | nil =>
    intro x hx hk
    simp [scanLayersGo, createSkeletonMetadata] at hx
    rcases hx with rfl | rfl <;> simp at hk
  | cons a layers ih =>
    intro x hx hk
    rcases hpa : processLayer env modelDir manifestRef config a with ⟨step, evs⟩
    cases step with
    | success f w =>
      simp only [scanLayersGo, hpa] at hx
      exact processLayer_success_within env modelDir manifestRef config a f w evs hpa x hx hk
    | skip =>
      simp only [scanLayersGo, hpa] at hx
      exact ih x hx hk

theorem scanLayers_modelCard_within (env : ScanEnv)
    (outputDirArg sanitizedDir manifestRef : String) (config : Option OCIImageConfig)
    (layers : List Layer) (x : FileWrite)
    (hx : x ∈ (scanLayersForModelCard env outputDirArg sanitizedDir manifestRef config
      layers).writes)
    (hk : x.kind = WriteKind.modelCard) :
    withinDir (goJoin outputDirArg sanitizedDir) x.path = true :=
  scanLayersGo_within env (goJoin outputDirArg sanitizedDir)
    (goJoin3 outputDirArg sanitizedDir "models") manifestRef config layers x hx hk

theorem scanLayersGo_skip_components (env : ScanEnv) (modelDir skelDir manifestRef : String)
    (config : Option OCIImageConfig) (L : Layer) (evs : List FetchEvent)
    (hL : processLayer env modelDir manifestRef config L = (.skip, evs)) :
    ∀ pre post : List Layer,
      (scanLayersGo env modelDir skelDir manifestRef config (pre ++ L :: post)).found =
        (scanLayersGo env modelDir skelDir manifestRef config (pre ++ post)).found ∧
      (scanLayersGo env modelDir skelDir manifestRef config (pre ++ L :: post)).metadataFlags =
        (scanLayersGo env modelDir skelDir manifestRef config (pre ++ post)).metadataFlags ∧
      (scanLayersGo env modelDir skelDir manifestRef config (pre ++ L :: post)).writes =
        (scanLayersGo env modelDir skelDir manifestRef config (pre ++ post)).writes := by
  intro pre
  induction pre with
  | nil =>
    intro post
    simp [scanLayersGo, hL]
  | cons a pre ih =>
    intro post
    rcases hpa : processLayer env modelDir manifestRef config a with ⟨step, evs2⟩
    cases step with
    | success f w => simp [scanLayersGo, hpa]
    | skip =>
      simp only [List.cons_append, scanLayersGo, hpa]
      exact ih post

theorem processLayer_fetches (env : ScanEnv) (modelDir manifestRef : String)
    (config : Option OCIImageConfig) (layer : Layer) (e : FetchEvent)
    (he : e ∈ (processLayer env modelDir manifestRef config layer).2) :
    e = fetchEv layer := by
  unfold processLayer at he
  split at he
  · split at he
    · simpa using he
    · split at he
      · simpa using he
      · simpa using he
  · simp at he

theorem scanLayersGo_fetches_fresh (env : ScanEnv) (modelDir skelDir manifestRef : String)
    (config : Option OCIImageConfig) :
    ∀ (layers : List Layer) (e : FetchEvent),
      e ∈ (scanLayersGo env modelDir skelDir manifestRef config layers).fetches →
      e.cacheAtCall = newBlobCache ∧ e.timeoutSeconds = 60 := by
  intro layers
  induction layers with
  | nil => intro e he; simp [scanLayersGo] at he
  | cons a layers ih =>
    intro e he
    rcases hpa : processLayer env modelDir manifestRef config a with ⟨step, evs⟩
    have hev : ∀ x ∈ evs, x = fetchEv a := by
      intro x hx
      exact processLayer_fetches env modelDir manifestRef config a x (by rw [hpa]; exact hx)
    cases step with
    | success f w =>
      simp only [scanLayersGo, hpa] at he
      rw [hev e he]
      exact ⟨rfl, rfl⟩
    | skip =>
      simp only [scanLayersGo, hpa] at he
      rcases List.mem_append.mp he with h1 | h2
      · rw [hev e h1]
        exact ⟨rfl, rfl⟩
      · exact ih e h2

/-- C2 counterexample: an archive whose single entry ending in .md has a
parent-traversal name is encountered as exactly one .md entry, yet the
scan of the doc layer returns found = false (the path-safety check skips
it), refuting the claimed if-and-only-if. -/
theorem scanDocLayer_single_md_not_sufficient :
    ([⟨"../../evil.md", [104, 105]⟩] : List TarEntry).countP isMdEntry = 1 ∧
    (scanLayersForModelCard trivialScanEnv "output" "m" "reg/m:v1" none
      [mkDocLayer "sha256:d1" "application/vnd.oci.image.layer.v1.tar" 10
        [⟨"../../evil.md", [104, 105]⟩]]).found = false := by decide

/-- C2 (amended): the scan of a doc layer returns found = true if and
only if exactly one entry ending in .md is encountered in the tar stream
and its sanitized name passes the path-safety checks; the early-stopping
entry counter hits 1 exactly when the archive holds exactly one .md
entry; and any two archives with zero or multiple .md entries yield
identical externally observable outcomes (skeleton metadata, found
false, no model-card file). -/
theorem scanDocLayer_found_iff (env : ScanEnv)
    (outputDirArg sanitizedDir manifestRef : String) (config : Option OCIImageConfig)
    (d mt : String) (sz : Int) (entries e1 e2 : List TarEntry) :
    ((scanLayersForModelCard env outputDirArg sanitizedDir manifestRef config
        [mkDocLayer d mt sz entries]).found = true ↔
      ((tarScanMd entries 0 "" []).1 = 1 ∧
        pathChecksPass (goJoin outputDirArg sanitizedDir)
          (tarScanMd entries 0 "" []).2.1 = true)) ∧
    ((tarScanMd entries 0 "" []).1 = 1 ↔ entries.countP isMdEntry = 1) ∧
    (e1.countP isMdEntry ≠ 1 → e2.countP isMdEntry ≠ 1 →
      scanLayersForModelCard env outputDirArg sanitizedDir manifestRef config
          [mkDocLayer d mt sz e1] =
        scanLayersForModelCard env outputDirArg sanitizedDir manifestRef config
          [mkDocLayer d mt sz e2]) := by
  refine ⟨?_, tarScanMd_count_one entries "" [], ?_⟩
  · by_cases h1 : (tarScanMd entries 0 "" []).1 = 1
    · by_cases h2 : pathChecksPass (goJoin outputDirArg sanitizedDir)
          (tarScanMd entries 0 "" []).2.1 = true
      · simp [scanLayersForModelCard, scanLayersGo, processLayer_mkDocLayer,
          processBlobEntries, h1, h2]
      · simp [scanLayersForModelCard, scanLayersGo, processLayer_mkDocLayer,
          processBlobEntries, h1, h2]
    · simp [scanLayersForModelCard, scanLayersGo, processLayer_mkDocLayer,
        processBlobEntries, h1]
  · intro h1 h2
    have k1 : (tarScanMd e1 0 "" []).1 ≠ 1 :=
      fun hh => h1 ((tarScanMd_count_one e1 "" []).mp hh)
    have k2 : (tarScanMd e2 0 "" []).1 ≠ 1 :=
      fun hh => h2 ((tarScanMd_count_one e2 "" []).mp hh)
    have b1 : processBlobEntries env (goJoin outputDirArg sanitizedDir) manifestRef config
        e1 = .skip := by simp [processBlobEntries, k1]
    have b2 : processBlobEntries env (goJoin outputDirArg sanitizedDir) manifestRef config
        e2 = .skip := by simp [processBlobEntries, k2]
    simp only [scanLayersForModelCard, scanLayersGo, processLayer_mkDocLayer, b1, b2]
    simp [fetchEv, mkDocLayer]

theorem scanDocLayer_found_iff_witness :
    scanLayersForModelCard trivialScanEnv "output" "m" "reg/m:v1" none
        [mkDocLayer "sha256:d1" "mt" 4 []] =
      scanLayersForModelCard trivialScanEnv "output" "m" "reg/m:v1" none
        [mkDocLayer "sha256:d1" "mt" 4
          [⟨"a.md", [97]⟩, ⟨"b.md", [98]⟩]] :=
  (scanDocLayer_found_iff trivialScanEnv "output" "m" "reg/m:v1" none "sha256:d1" "mt" 4
    [] [] [⟨"a.md", [97]⟩, ⟨"b.md", [98]⟩]).2.2 (by decide) (by decide)

/-- C3: a tar entry that is not a documentation entry is drained and the
scan continues with the subsequent entries; a doc layer whose single
documentation entry has an absolute or parent-traversing cleaned name is
skipped without any write and the layer scan continues with the other
layers unchanged; and every model-card file write of any scan lands
within the per-model destination directory. -/
theorem tar_path_traversal_safe :
    (∀ (e : TarEntry) (rest : List TarEntry) (c : Nat) (n : String) (k : List Nat),
      isMdEntry e = false → tarScanMd (e :: rest) c n k = tarScanMd rest c n k) ∧
    (∀ (env : ScanEnv) (outputDirArg sanitizedDir manifestRef : String)
      (config : Option OCIImageConfig) (d mt : String) (sz : Int)
      (name : String) (content : List Nat) (pre post : List Layer),
      strEnds ".md" name = true →
      (goIsAbs (goClean name) = true ∨ strStarts "../" (goClean name) = true) →
      processLayer env (goJoin outputDirArg sanitizedDir) manifestRef config
          (mkDocLayer d mt sz [⟨name, content⟩]) =
        (.skip, [fetchEv (mkDocLayer d mt sz [⟨name, content⟩])]) ∧
      (scanLayersForModelCard env outputDirArg sanitizedDir manifestRef config
          (pre ++ mkDocLayer d mt sz [⟨name, content⟩] :: post)).found =
        (scanLayersForModelCard env outputDirArg sanitizedDir manifestRef config
          (pre ++ post)).found ∧
      (scanLayersForModelCard env outputDirArg sanitizedDir manifestRef config
          (pre ++ mkDocLayer d mt sz [⟨name, content⟩] :: post)).metadataFlags =
        (scanLayersForModelCard env outputDirArg sanitizedDir manifestRef config
          (pre ++ post)).metadataFlags ∧
      (scanLayersForModelCard env outputDirArg sanitizedDir manifestRef config
          (pre ++ mkDocLayer d mt sz [⟨name, content⟩] :: post)).writes =
        (scanLayersForModelCard env outputDirArg sanitizedDir manifestRef config
          (pre ++ post)).writes) ∧
    (∀ (env : ScanEnv) (outputDirArg sanitizedDir manifestRef : String)
      (config : Option OCIImageConfig) (layers : List Layer) (x : FileWrite),
      x ∈ (scanLayersForModelCard env outputDirArg sanitizedDir manifestRef config
        layers).writes →
      x.kind = WriteKind.modelCard →
      withinDir (goJoin outputDirArg sanitizedDir) x.path = true) := by
  refine ⟨?_, ?_, ?_⟩
  · intro e rest c n k h
    simp only [isMdEntry] at h
    simp [tarScanMd, h]
  · intro env outputDirArg sanitizedDir manifestRef config d mt sz name content pre post
      hmd hunsafe
    have hpc : pathChecksPass (goJoin outputDirArg sanitizedDir) name = false := by
      simp only [pathChecksPass]
      rcases hunsafe with h | h <;> simp [h]
    have hb : processBlobEntries env (goJoin outputDirArg sanitizedDir) manifestRef config
        [⟨name, content⟩] = .skip := by
      simp [processBlobEntries, tarScanMd, hmd, hpc]
    have hskip : processLayer env (goJoin outputDirArg sanitizedDir) manifestRef config
        (mkDocLayer d mt sz [⟨name, content⟩]) =
        (.skip, [fetchEv (mkDocLayer d mt sz [⟨name, content⟩])]) := by
      rw [processLayer_mkDocLayer, hb]
    have hcont := scanLayersGo_skip_components env (goJoin outputDirArg sanitizedDir)
      (goJoin3 outputDirArg sanitizedDir "models") manifestRef config
      (mkDocLayer d mt sz [⟨name, content⟩])
      [fetchEv (mkDocLayer d mt sz [⟨name, content⟩])] hskip pre post
    exact ⟨hskip, hcont.1, hcont.2.1, hcont.2.2⟩
  · intro env outputDirArg sanitizedDir manifestRef config layers x hx hk
    exact scanLayers_modelCard_within env outputDirArg sanitizedDir manifestRef config
      layers x hx hk

theorem tar_path_traversal_safe_witness :
    tarScanMd [⟨"../../etc/passwd", [0]⟩, ⟨"README.md", [104]⟩] 0 "" [] =
      tarScanMd [⟨"README.md", [104]⟩] 0 "" [] ∧
    processLayer trivialScanEnv (goJoin "output" "m") "reg/m:v1" none
        (mkDocLayer "sha256:d1" "mt" 9 [⟨"../../evil.md", [104]⟩]) =
      (.skip, [fetchEv (mkDocLayer "sha256:d1" "mt" 9 [⟨"../../evil.md", [104]⟩])]) ∧
    withinDir (goJoin "output" "m")
      ({ kind := WriteKind.modelCard, path := "output/m/README.md",
         data := FileData.bytes [104] } : FileWrite).path = true :=
  ⟨(tar_path_traversal_safe.1 ⟨"../../etc/passwd", [0]⟩ [⟨"README.md", [104]⟩] 0 "" []
      (by decide)),
   (tar_path_traversal_safe.2.1 trivialScanEnv "output" "m" "reg/m:v1" none "sha256:d1"
      "mt" 9 "../../evil.md" [104] [] [] (by decide) (Or.inr (by decide))).1,
   (tar_path_traversal_safe.2.2 trivialScanEnv "output" "m" "reg/m:v1" none
      [mkDocLayer "sha256:d1" "mt" 9 [⟨"README.md", [104]⟩]]
      { kind := WriteKind.modelCard, path := "output/m/README.md",
        data := FileData.bytes [104] }
      (by decide) rfl)⟩

/-- C6 counterexample: two modelcard layers carrying the same digest
each trigger a GetBlob call built with a freshly created empty memory
cache, so both fetches of the identical digest go to the network: the
cache is not shared across fetches. -/
theorem blobCache_not_shared_counterexample :
    (scanLayersForModelCard trivialScanEnv "output" "m" "reg/m:v1" none
      [mkDocLayer "sha256:abc" "mt" 5 [], mkDocLayer "sha256:abc" "mt" 5 []]).fetches =
      [{ digest := "sha256:abc", cacheAtCall := [], timeoutSeconds := 60 },
       { digest := "sha256:abc", cacheAtCall := [], timeoutSeconds := 60 }] ∧
    goesToNetwork
      { digest := "sha256:abc", cacheAtCall := [], timeoutSeconds := 60 } = true := by
  decide

/-- C6 (amended): every GetBlob call performed by the layer scan uses a
fresh 60-second bounded context and passes a freshly constructed, empty
in-memory blob-info cache; the cache is created per call rather than
shared across fetches, so fetches of identical digests are not
deduplicated within a run. -/
theorem blobFetch_fresh_context_per_call (env : ScanEnv)
    (outputDirArg sanitizedDir manifestRef : String) (config : Option OCIImageConfig)
    (layers : List Layer) (e : FetchEvent)
    (he : e ∈ (scanLayersForModelCard env outputDirArg sanitizedDir manifestRef config
      layers).fetches) :
    e.cacheAtCall = newBlobCache ∧ e.timeoutSeconds = 60 :=
  scanLayersGo_fetches_fresh env (goJoin outputDirArg sanitizedDir)
    (goJoin3 outputDirArg sanitizedDir "models") manifestRef config layers e he

theorem blobFetch_fresh_context_per_call_witness :
    ({ digest := "sha256:abc", cacheAtCall := [], timeoutSeconds := 60 } :
      FetchEvent).cacheAtCall = newBlobCache ∧
    ({ digest := "sha256:abc", cacheAtCall := [], timeoutSeconds := 60 } :
      FetchEvent).timeoutSeconds = 60 :=
  blobFetch_fresh_context_per_call trivialScanEnv "output" "m" "reg/m:v1" none
    [mkDocLayer "sha256:abc" "mt" 5 []]
    { digest := "sha256:abc", cacheAtCall := [], timeoutSeconds := 60 } (by decide)

/-- The normalized non-empty name keys of a catalog model list, in
order: the names the claim about deduplication quantifies over. -/
def nonEmptyNameKeys (l : List CatalogMetadata) : List String :=
  l.filterMap fun m =>
    match m.name with
    | none => none
    | some n => if normalizeName n = "" then none else some (normalizeName n)

theorem dedup_foldl (s : List CatalogMetadata) :
    ∀ (r0 : List CatalogMetadata) (seen : List String),
      (s.foldl dedupStep (r0, seen)).1 = r0 ++ keptStatics seen s := by
  induction s with
  | nil => intro r0 seen; simp [keptStatics]
  | cons sm s ih =>
    intro r0 seen
    rw [List.foldl_cons]
    cases hn : sm.name with
    | none =>
      rw [show dedupStep (r0, seen) sm = (r0, seen) from by simp [dedupStep, hn]]
      rw [ih]
      simp [keptStatics, hn]
    | some n =>
      by_cases hk : normalizeName n = ""
      · rw [show dedupStep (r0, seen) sm = (r0, seen) from by simp [dedupStep, hn, hk]]
        rw [ih]
        simp [keptStatics, hn, hk]
      · by_cases hc : contains seen (normalizeName n) = true
        · rw [show dedupStep (r0, seen) sm = (r0, seen) from by
            simp [dedupStep, hn, hk, hc]]
          rw [ih]
          simp [keptStatics, hn, hk, hc]
        · rw [show dedupStep (r0, seen) sm = (r0 ++ [sm], normalizeName n :: seen) from by
            simp [dedupStep, hn, hk, hc]]
          rw [ih]
          simp [keptStatics, hn, hk, hc, List.append_assoc]

theorem keptStatics_keys (s : List CatalogMetadata) :
    ∀ seen : List String,
      (nonEmptyNameKeys (keptStatics seen s)).Nodup ∧
      ∀ k ∈ nonEmptyNameKeys (keptStatics seen s), ¬ k ∈ seen := by
  induction s with
  | nil => intro seen; simp [keptStatics, nonEmptyNameKeys]
  | cons sm s ih =>
    intro seen
    cases hn : sm.name with
    | none => simpa [keptStatics, hn] using ih seen
    | some n =>
      by_cases hk : normalizeName n = ""
      · simpa [keptStatics, hn, hk] using ih seen
      · by_cases hc : contains seen (normalizeName n) = true
        · simpa [keptStatics, hn, hk, hc] using ih seen
        · rw [show keptStatics seen (sm :: s) = sm :: keptStatics (normalizeName n :: seen) s
            from by simp [keptStatics, hn, hk, hc]]
          rw [show nonEmptyNameKeys (sm :: keptStatics (normalizeName n :: seen) s) =
              normalizeName n :: nonEmptyNameKeys (keptStatics (normalizeName n :: seen) s)
            from by simp [nonEmptyNameKeys, hn, hk]]
          obtain ⟨ihnd, ihns⟩ := ih (normalizeName n :: seen)
          refine ⟨List.nodup_cons.mpr ⟨fun hmem => ?_, ihnd⟩, ?_⟩
          · exact (ihns _ hmem) (List.mem_cons_self _ _)
          · intro k hkmem
            rcases List.mem_cons.mp hkmem with rfl | hkm
            · exact fun hs => hc ((contains_iff_mem seen _).mpr hs)
            · exact fun hs => (ihns k hkm) (List.mem_cons_of_mem _ hs)

theorem mem_dynamicNameKeys_aux (d : List CatalogMetadata) :
    ∀ (acc : List String) (k : String),
      k ∈ d.foldl dynKeyStep acc ↔ k ∈ acc ∨ k ∈ nonEmptyNameKeys d := by
  induction d with
  | nil => intro acc k; simp [nonEmptyNameKeys]
  | cons m d ih =>
    intro acc k
    rw [List.foldl_cons]
    cases hn : m.name with
    | none =>
      rw [show dynKeyStep acc m = acc from by simp [dynKeyStep, hn]]
      rw [ih]
      simp [nonEmptyNameKeys, hn]
    | some n =>
      by_cases hk : normalizeName n = ""
      · rw [show dynKeyStep acc m = acc from by simp [dynKeyStep, hn, hk]]
        rw [ih]
        simp [nonEmptyNameKeys, hn, hk]
      · rw [show dynKeyStep acc m = normalizeName n :: acc from by simp [dynKeyStep, hn, hk]]
        rw [ih]
        simp [nonEmptyNameKeys, hn, hk, List.mem_cons]
        tauto

theorem mem_dynamicNameKeys (d : List CatalogMetadata) (k : String) :
    k ∈ dynamicNameKeys d ↔ k ∈ nonEmptyNameKeys d := by
  rw [dynamicNameKeys, mem_dynamicNameKeys_aux]
  simp

/-- C9 counterexample: two dynamic models with the same non-empty name
are both kept by deduplicateModels, so the result contains two entries
with the same normalized non-empty name, refuting the claimed global
uniqueness consequence. -/
theorem deduplicateModels_duplicate_dynamic_names :
    deduplicateModels [⟨some "Model A"⟩, ⟨some "Model A"⟩] [] =
      [⟨some "Model A"⟩, ⟨some "Model A"⟩] ∧
    ¬ (nonEmptyNameKeys
        (deduplicateModels [⟨some "Model A"⟩, ⟨some "Model A"⟩] [])).Nodup := by
  decide

/-- C9 (amended): deduplicateModels returns all dynamic models in their
original order followed by exactly those static models whose trimmed,
lowercased name is non-nil, non-empty and not already present among the
dynamic models or among earlier kept static models; consequently the
appended static models have pairwise distinct normalized names, none of
which occurs among the dynamic models (duplicate names may persist
within the dynamic prefix, which is copied verbatim). -/
theorem deduplicateModels_characterization :
    (∀ d s : List CatalogMetadata,
      deduplicateModels d s = d ++ keptStatics (dynamicNameKeys d) s) ∧
    (∀ (seen : List String) (s : List CatalogMetadata),
      (nonEmptyNameKeys (keptStatics seen s)).Nodup ∧
      ∀ k ∈ nonEmptyNameKeys (keptStatics seen s), ¬ k ∈ seen) ∧
    (∀ (d s : List CatalogMetadata) (k : String),
      k ∈ nonEmptyNameKeys (keptStatics (dynamicNameKeys d) s) →
      ¬ k ∈ nonEmptyNameKeys d) := by
  refine ⟨?_, ?_, ?_⟩
  · intro d s
    exact dedup_foldl s d (dynamicNameKeys d)
  · intro seen s
    exact keptStatics_keys s seen
  · intro d s k hk hmem
    exact (keptStatics_keys s (dynamicNameKeys d)).2 k hk
      ((mem_dynamicNameKeys d k).mpr hmem)

theorem deduplicateModels_characterization_witness :
    deduplicateModels [⟨some "Model A"⟩] [⟨some "model a"⟩, ⟨some "Model B"⟩] =
      [⟨some "Model A"⟩] ++ keptStatics (dynamicNameKeys [⟨some "Model A"⟩])
        [⟨some "model a"⟩, ⟨some "Model B"⟩] ∧
    ¬ "model b" ∈ nonEmptyNameKeys [(⟨some "Model A"⟩ : CatalogMetadata)] :=
  ⟨deduplicateModels_characterization.1 [⟨some "Model A"⟩]
      [⟨some "model a"⟩, ⟨some "Model B"⟩],
   deduplicateModels_characterization.2.2 [⟨some "Model A"⟩]
      [⟨some "model a"⟩, ⟨some "Model B"⟩] "model b" (by decide)⟩
